import Mathlib

/-
Shallow embedding of `algnet.py` (two-player auction learner).

Conventions of the embedding:

* A valuation / bid profile is a real matrix with `b` rows (bidders) and
  `n` columns (items), represented as `Fin b → Fin n → ℝ`.  Inside the
  vectorised losses (`v_auct_loss` / `v_misr_loss`, which `jax.vmap` over
  the batch axis) every array that reaches `Auctioneer.__call__`,
  `Misreporter.__call__`, `permute_along_bidders`, `misr_bidder_i` and
  `utility` is exactly such a 2-dimensional `(bidders, items)` array; the
  embedding models that 2-dimensional case.

* The Haiku `MLP`s are arbitrary parametrised differentiable functions of
  their (flattened) input; since every claim quantifies over all network
  parameters, each MLP is modelled as an arbitrary function of the input
  matrix (`jnp.ravel` is a bijection between the matrix and the flat
  vector the MLP consumes, so nothing is lost or gained by keeping the
  matrix shape).

* `B[:, 0:i]`-style NumPy slices clip at the number of columns, and
  `B[:, i:i+1]` is empty for `i ≥` the number of columns; the index
  functions below reproduce exactly that clipping behaviour, because the
  loops in the source run the slice index `i` over `range(bidders)` while
  the sliced axis of the 2-dimensional arrays has length `items`.

* `jnp.squeeze(vals) * alloc` for a 2-dimensional `vals` is an ordinary
  elementwise product except when `items = 1 < bidders`: there the squeeze
  produces a vector of length `bidders` and NumPy broadcasting turns the
  product into the outer product `alloc[i,0] * vals[k,0]`, so the row sum
  becomes `alloc[i,0] * (sum over all bidders k of vals[k,0])`.
  `squeezeDot` reproduces both cases.
-/

/-- A `(bidders, items)` real array: rows are bidders, columns are items. -/
abbrev Mat (b n : ℕ) : Type := Fin b → Fin n → ℝ

/-- `jax.nn.sigmoid`. -/
noncomputable def sigmoid (x : ℝ) : ℝ := 1 / (1 + Real.exp (-x))

/-- `jax.nn.softmax` along one axis: component `i` of the softmax of the
vector `v`. -/
noncomputable def softmaxCol {b : ℕ} (v : Fin b → ℝ) (i : Fin b) : ℝ :=
  Real.exp (v i) / ∑ k, Real.exp (v k)

/-- The source column that ends up at position `c` after
`permute_along_bidders` moves column `i` to the front (with NumPy slice
clipping: for `i ≥ n` the concatenation `[B[:,i:i+1], B[:,0:i], B[:,i+1:]]`
is `B` unchanged). -/
def permIdx (n : ℕ) (i : ℕ) (c : Fin n) : Fin n :=
  if hi : i < n then
    if (c : ℕ) = 0 then ⟨i, hi⟩
    else if (c : ℕ) ≤ i then ⟨(c : ℕ) - 1, lt_of_le_of_lt (Nat.sub_le _ _) c.isLt⟩
    else c
  else c

/-- `permute_along_bidders(B, i)`: `jnp.concatenate([b_i, head, tail], axis=1)`
where `head = B[:, 0:i]`, `tail = B[:, i+1:]`, `b_i = B[:, i:i+1]`.  On the
2-dimensional arrays it receives inside the vmapped losses, axis 1 is the
item axis, so this permutes columns. -/
def permute_along_bidders {b n : ℕ} (B : Mat b n) (i : ℕ) : Mat b n :=
  fun r c => B r (permIdx n i c)

/-- `TPAL.misr_bidder_i(vals, misrs, i)`:
`jnp.concatenate([vals[:, 0:i], misrs[:, i:i+1], vals[:, i+1:]], axis=1)`.
On 2-dimensional arrays this replaces column `i` (item `i`) of `vals` by
column `i` of `misrs` when `i < n`, and (by slice clipping) returns `vals`
unchanged when `i ≥ n`. -/
def misr_bidder_i {b n : ℕ} (vals misrs : Mat b n) (i : ℕ) : Mat b n :=
  fun r c => if (c : ℕ) = i then misrs r c else vals r c

/-- Comparison definition following the specification's words (and the
source's own comment "Take misreports of bidder i while keeping the rest
fixed"): the profile in which ROW `i` (bidder `i`'s report) of `vals` is
replaced by bidder `i`'s row of `misrs`, all other rows staying truthful. -/
def misr_bidder_i_rowSpec {b n : ℕ} (vals misrs : Mat b n) (i : ℕ) : Mat b n :=
  fun r c => if (r : ℕ) = i then misrs r c else vals r c

/-- Parameters of the `Auctioneer` network: its three Haiku MLPs, modelled
as arbitrary functions of the input profile (see header). -/
structure AuctParams (b n : ℕ) where
  alloc_prob : Mat b n → Fin n → ℝ
  alloc_which : Mat b n → Fin n → ℝ
  pay_mlp : Mat b n → ℝ

/-- Parameters of the `Misreporter` network: its Haiku MLP, modelled as an
arbitrary function of the input profile. -/
structure MisrParams (b n : ℕ) where
  misr_mlp : Mat b n → Fin n → ℝ

/-- `alloc = nn.sigmoid(self.alloc_prob(jnp.ravel(vals)))`: the per-item
probability of allocating item `j` at all. -/
noncomputable def allocItemProb {b n : ℕ} (p : AuctParams b n) (vals : Mat b n)
    (j : Fin n) : ℝ :=
  sigmoid (p.alloc_prob vals j)

/-- The matrix `L` of `Auctioneer.__call__`: row `i` is
`self.alloc_which(jnp.ravel(permute_along_bidders(vals, i)))`. -/
noncomputable def allocL {b n : ℕ} (p : AuctParams b n) (vals : Mat b n) : Mat b n :=
  fun i j => p.alloc_which (permute_along_bidders vals (i : ℕ)) j

/-- The allocation matrix returned by `Auctioneer.__call__`:
`alloc * nn.softmax(L, axis=0)`, i.e. the per-item sigmoid factor times the
softmax of `L`'s column `j` over bidders. -/
noncomputable def allocMatrix {b n : ℕ} (p : AuctParams b n) (vals : Mat b n) : Mat b n :=
  fun i j => allocItemProb p vals j * softmaxCol (fun k => allocL p vals k j) i

/-- The per-bidder payment fraction
`nn.sigmoid(self.pay_mlp(jnp.ravel(permute_along_bidders(vals, i))))`
(the stack/squeeze/re-stack dance in the source, including the
`bidders == 1` special case, is pure shape bookkeeping producing exactly
this vector of length `bidders`). -/
noncomputable def payFrac {b n : ℕ} (p : AuctParams b n) (vals : Mat b n)
    (i : Fin b) : ℝ :=
  sigmoid (p.pay_mlp (permute_along_bidders vals (i : ℕ)))

/-- `jnp.sum(jnp.squeeze(vals) * alloc, axis=1)[i]` for a 2-dimensional
`vals`.  When `items = 1 < bidders` the squeeze drops the item axis and
broadcasting makes the product an outer product (see header); otherwise it
is the ordinary row-wise dot product. -/
noncomputable def squeezeDot {b n : ℕ} (vals alloc : Mat b n) (i : Fin b) : ℝ :=
  if 1 < b ∧ n = 1 then (∑ k, ∑ j, vals k j) * (∑ j, alloc i j)
  else ∑ j, vals i j * alloc i j

/-- The payment vector returned by `Auctioneer.__call__`:
`pay * jnp.sum(jnp.squeeze(vals) * alloc, axis=1)`. -/
noncomputable def payVec {b n : ℕ} (p : AuctParams b n) (vals : Mat b n)
    (i : Fin b) : ℝ :=
  payFrac p vals i * squeezeDot vals (allocMatrix p vals) i

/-- `Auctioneer.__call__`: returns the `(alloc, pay)` pair. -/
noncomputable def Auctioneer.call {b n : ℕ} (p : AuctParams b n) (vals : Mat b n) :
    Mat b n × (Fin b → ℝ) :=
  (allocMatrix p vals, payVec p vals)

/-- `Misreporter.__call__`: for each bidder `i`, the MLP applied to the
raveled `permute_along_bidders(vals, i)`, stacked and passed through
`nn.sigmoid`. -/
noncomputable def Misreporter.call {b n : ℕ} (p : MisrParams b n) (vals : Mat b n) :
    Mat b n :=
  fun i j => sigmoid (p.misr_mlp (permute_along_bidders vals (i : ℕ)) j)

/-- `TPAL.utility`: `jnp.sum(jnp.squeeze(vals) * alloc, axis=1) - pay`. -/
noncomputable def TPAL.utility {b n : ℕ} (vals alloc : Mat b n) (pay : Fin b → ℝ)
    (i : Fin b) : ℝ :=
  squeezeDot vals alloc i - pay i

/-- `TPAL.misr_utility`: component `i` is the utility bidder `i` obtains
when the auction is applied to `misr_bidder_i(val_sample, misreports, i)`
while utilities are measured against the truthful valuations. -/
noncomputable def TPAL.misr_utility {b n : ℕ} (misreports vals : Mat b n)
    (p : AuctParams b n) (i : Fin b) : ℝ :=
  TPAL.utility vals (allocMatrix p (misr_bidder_i vals misreports (i : ℕ)))
    (payVec p (misr_bidder_i vals misreports (i : ℕ))) i

/-- `TPAL.auct_loss`:
`-(sqrt(sum(pay)) - sqrt(sum(regret))) + sum(regret)` with
`regret = relu(misr_utility - utility)`. -/
noncomputable def TPAL.auct_loss {b n : ℕ} (ap : AuctParams b n) (mp : MisrParams b n)
    (vals : Mat b n) : ℝ :=
  -(Real.sqrt (∑ i, payVec ap vals i) -
      Real.sqrt (∑ i, max 0 (TPAL.misr_utility (Misreporter.call mp vals) vals ap i -
        TPAL.utility vals (allocMatrix ap vals) (payVec ap vals) i))) +
    ∑ i, max 0 (TPAL.misr_utility (Misreporter.call mp vals) vals ap i -
      TPAL.utility vals (allocMatrix ap vals) (payVec ap vals) i)

/-- `TPAL.misr_loss`: minus the sum of the misreport utilities. -/
noncomputable def TPAL.misr_loss {b n : ℕ} (mp : MisrParams b n) (ap : AuctParams b n)
    (vals : Mat b n) : ℝ :=
  -∑ i, TPAL.misr_utility (Misreporter.call mp vals) vals ap i

/-- Comparison definition following the specification's words: the
misreport utility computed with bidder-ROW replacement
(`misr_bidder_i_rowSpec`) instead of the code's column replacement. -/
noncomputable def TPAL.misr_utility_rowSpec {b n : ℕ} (misreports vals : Mat b n)
    (p : AuctParams b n) (i : Fin b) : ℝ :=
  TPAL.utility vals (allocMatrix p (misr_bidder_i_rowSpec vals misreports (i : ℕ)))
    (payVec p (misr_bidder_i_rowSpec vals misreports (i : ℕ))) i

/-- Comparison definition following the specification's words: the
misreporter loss computed with bidder-ROW replacement. -/
noncomputable def TPAL.misr_loss_rowSpec {b n : ℕ} (mp : MisrParams b n)
    (ap : AuctParams b n) (vals : Mat b n) : ℝ :=
  -∑ i, TPAL.misr_utility_rowSpec (Misreporter.call mp vals) vals ap i

/-- `BidSampler.sample(num_samples)`: splits the sampler key, then builds
the batch `jnp.stack([jax.random.uniform(self.subkey, (bidders, items)) for
_ in range(0, num_samples)])`.  Every iteration of the comprehension calls
`jax.random.uniform` with the same `self.subkey` (and `uniform` is a pure
function of its key), so every slice is the same draw.  The PRNG is
abstract: `split` models `jax.random.split` (first component becomes the
new sampler key, second the subkey) and `uniform` models
`jax.random.uniform(key, (bidders, items))`.  Returns the updated sampler
key together with the batch. -/
def BidSampler.sample {Key : Type} {b n : ℕ} (split : Key → Key × Key)
    (uniform : Key → Mat b n) (key : Key) (num_samples : ℕ) :
    Key × (Fin num_samples → Mat b n) :=
  ((split key).1, fun _ => uniform (split key).2)

/-- `TPALTuple`: a pair of an auctioneer component and a misreporter
component. -/
structure TPALTuple (α β : Type) where
  auct : α
  misr : β

/-- `TPALState`: network parameters and optimizer states, both split into
auctioneer and misreporter components.  The component types are abstract
(Haiku parameter trees and optax optimizer states). -/
structure TPALState (AP MP AO MO : Type) where
  params : TPALTuple AP MP
  opt_state : TPALTuple AO MO

/-- `TPAL.reinit_misr(rng, tpal_state, vals)`: splits `rng`, freshly
initialises the misreporter parameters from the second key
(`misr_transform.init`, abstracted as `misrInit`) and the misreporter
optimizer state from those parameters (`optimizers.misr.init`, abstracted
as `misrOptInit`), and keeps the auctioneer parameters and optimizer state
of `tpal_state`. -/
def TPAL.reinit_misr {Key Batch AP MP AO MO : Type} (split : Key → Key × Key)
    (misrInit : Key → Batch → MP) (misrOptInit : MP → MO) (rng : Key)
    (st : TPALState AP MP AO MO) (vals : Batch) : TPALState AP MP AO MO :=
  TPALState.mk
    (TPALTuple.mk st.params.auct (misrInit (split rng).2 vals))
    (TPALTuple.mk st.opt_state.auct (misrOptInit (misrInit (split rng).2 vals)))

/-- One iteration of the `for step in range(num_steps)` loop of `training`:
sample `val_sample = sampler.sample(batch_size)`; if
`step % misr_reinit_iv == 0 and step <= misr_reinit_lim`, reinitialise the
misreporter (with a fresh `sampler.sample(1)`); run `misr_updates`
iterations of `update_misr` and then one `update_auct`, all on
`val_sample`.  The sampler key is threaded explicitly; `updMisr` and
`updAuct` abstract the jitted `update_misr` / `update_auct` (their logging
output is dropped). -/
def TPAL.trainStep {Key Batch AP MP AO MO : Type} (split : Key → Key × Key)
    (misrInit : Key → Batch → MP) (misrOptInit : MP → MO)
    (updMisr updAuct : TPALState AP MP AO MO → Batch → TPALState AP MP AO MO)
    (sampleFn : Key → ℕ → Key × Batch)
    (misr_updates misr_reinit_iv misr_reinit_lim batch_size : ℕ)
    (rng_misr_reinit : Key) (step : ℕ) (ks : Key × TPALState AP MP AO MO) :
    Key × TPALState AP MP AO MO :=
  let k1 := (sampleFn ks.1 batch_size).1
  let val_sample := (sampleFn ks.1 batch_size).2
  let kst :=
    if step % misr_reinit_iv = 0 ∧ step ≤ misr_reinit_lim then
      ((sampleFn k1 1).1,
        TPAL.reinit_misr split misrInit misrOptInit rng_misr_reinit ks.2
          (sampleFn k1 1).2)
    else (k1, ks.2)
  (kst.1, updAuct ((fun s => updMisr s val_sample)^[misr_updates] kst.2) val_sample)

/-- The `training` loop: folds `trainStep` over steps `0, 1, …,
num_steps - 1`, starting from the initial sampler key and `TPALState`. -/
def TPAL.training {Key Batch AP MP AO MO : Type} (split : Key → Key × Key)
    (misrInit : Key → Batch → MP) (misrOptInit : MP → MO)
    (updMisr updAuct : TPALState AP MP AO MO → Batch → TPALState AP MP AO MO)
    (sampleFn : Key → ℕ → Key × Batch)
    (misr_updates misr_reinit_iv misr_reinit_lim batch_size : ℕ)
    (rng_misr_reinit : Key) (num_steps : ℕ) (init : Key × TPALState AP MP AO MO) :
    Key × TPALState AP MP AO MO :=
  (List.range num_steps).foldl
    (fun acc s =>
      TPAL.trainStep split misrInit misrOptInit updMisr updAuct sampleFn
        misr_updates misr_reinit_iv misr_reinit_lim batch_size rng_misr_reinit
        s acc)
    init

/-- Auctioneer parameters whose three MLPs are the constant-zero
functions; used to evaluate the model at concrete inputs. -/
def zeroAuctParams (b n : ℕ) : AuctParams b n :=
  AuctParams.mk (fun _ _ => 0) (fun _ _ => 0) (fun _ => 0)

/-- Misreporter parameters whose MLP is the constant-zero function. -/
def zeroMisrParams (b n : ℕ) : MisrParams b n :=
  MisrParams.mk (fun _ _ => 0)

/-- The all-zeros profile. -/
def zeroMat (b n : ℕ) : Mat b n := fun _ _ => 0

/-- The all-ones profile. -/
def onesMat (b n : ℕ) : Mat b n := fun _ _ => 1

/-- A concrete `(2, 1)` profile: bidder 0 values the single item at 0,
bidder 1 values it at 1. -/
def valsTwoOne : Mat 2 1 := fun r _ => if (r : ℕ) = 0 then 0 else 1

/-- A concrete `(1, 2)` profile: the single bidder values item 0 at 0 and
item 1 at 1. -/
def valsOneTwo : Mat 1 2 := fun _ c => if (c : ℕ) = 0 then 0 else 1

/-- The sigmoid is strictly positive. -/
theorem sigmoid_pos (x : ℝ) : 0 < sigmoid x := by
  unfold sigmoid
  have h : (0:ℝ) < 1 + Real.exp (-x) := by positivity
  exact div_pos one_pos h

/-- The sigmoid is strictly below one. -/
theorem sigmoid_lt_one (x : ℝ) : sigmoid x < 1 := by
  unfold sigmoid
  have h : (0:ℝ) < 1 + Real.exp (-x) := by positivity
  rw [div_lt_one h]
  have := Real.exp_pos (-x)
  linarith

/-- The sigmoid at zero is one half. -/
theorem sigmoid_zero_eq : sigmoid 0 = 1 / 2 := by
  unfold sigmoid
  rw [neg_zero, Real.exp_zero]
  norm_num

/-- The softmax denominator is positive as soon as one component exists. -/
theorem softmax_denom_pos {b : ℕ} (v : Fin b → ℝ) (i : Fin b) :
    0 < ∑ k, Real.exp (v k) :=
  Finset.sum_pos (fun k _ => Real.exp_pos (v k)) ⟨i, Finset.mem_univ i⟩

/-- Each softmax component is strictly positive. -/
theorem softmaxCol_pos {b : ℕ} (v : Fin b → ℝ) (i : Fin b) : 0 < softmaxCol v i :=
  div_pos (Real.exp_pos (v i)) (softmax_denom_pos v i)

/-- Each softmax component is at most one. -/
theorem softmaxCol_le_one {b : ℕ} (v : Fin b → ℝ) (i : Fin b) : softmaxCol v i ≤ 1 := by
  unfold softmaxCol
  rw [div_le_one (softmax_denom_pos v i)]
  exact Finset.single_le_sum (fun k _ => (Real.exp_pos (v k)).le) (Finset.mem_univ i)

/-- The softmax components sum to one when there is at least one bidder. -/
theorem softmaxCol_sum_eq_one {b : ℕ} (hb : 0 < b) (v : Fin b → ℝ) :
    ∑ i, softmaxCol v i = 1 := by
  unfold softmaxCol
  have i0 : Fin b := ⟨0, hb⟩
  rw [← Finset.sum_div]
  exact div_self (ne_of_gt (softmax_denom_pos v i0))

/-- Every allocation entry is nonnegative. -/
theorem allocMatrix_nonneg {b n : ℕ} (p : AuctParams b n) (vals : Mat b n)
    (i : Fin b) (j : Fin n) : 0 ≤ allocMatrix p vals i j :=
  le_of_lt (mul_pos (sigmoid_pos _) (softmaxCol_pos _ i))

/-- Every allocation entry is strictly below one. -/
theorem allocMatrix_lt_one {b n : ℕ} (p : AuctParams b n) (vals : Mat b n)
    (i : Fin b) (j : Fin n) : allocMatrix p vals i j < 1 := by
  have h1 : allocMatrix p vals i j ≤ allocItemProb p vals j * 1 :=
    mul_le_mul_of_nonneg_left (softmaxCol_le_one _ i) (le_of_lt (sigmoid_pos _))
  have h2 : allocItemProb p vals j * 1 < 1 := by
    rw [mul_one]; exact sigmoid_lt_one _
  exact lt_of_le_of_lt h1 h2

/-- Claim C4: every entry of the allocation matrix lies in [0,1]; for every
item the column sum over bidders is at most 1; each item's column of the
softmax factor sums to exactly 1; and the per-item sigmoid factor lies
strictly between 0 and 1. -/
theorem alloc_feasibility :
    ∀ (b n : ℕ), 0 < b → ∀ (p : AuctParams b n) (vals : Mat b n),
      (∀ (i : Fin b) (j : Fin n),
        0 ≤ allocMatrix p vals i j ∧ allocMatrix p vals i j ≤ 1) ∧
      (∀ j : Fin n, ∑ i, allocMatrix p vals i j ≤ 1) ∧
      (∀ j : Fin n, ∑ i, softmaxCol (fun k => allocL p vals k j) i = 1) ∧
      (∀ j : Fin n, 0 < allocItemProb p vals j ∧ allocItemProb p vals j < 1) := by
  intro b n hb p vals
  refine ⟨fun i j => ⟨allocMatrix_nonneg p vals i j, (allocMatrix_lt_one p vals i j).le⟩,
    ?_, fun j => softmaxCol_sum_eq_one hb _,
    fun j => ⟨sigmoid_pos _, sigmoid_lt_one _⟩⟩
  intro j
  have hsum : ∑ i, allocMatrix p vals i j =
      allocItemProb p vals j * ∑ i, softmaxCol (fun k => allocL p vals k j) i := by
    simp only [allocMatrix]
    rw [Finset.mul_sum]
  rw [hsum, softmaxCol_sum_eq_one hb, mul_one]
  exact (sigmoid_lt_one _).le

/-- Witness for C4 at one bidder, one item, constant-zero networks and the
all-zeros valuation profile. -/
theorem alloc_feasibility_witness :
    0 < 1 ∧
    ((∀ (i : Fin 1) (j : Fin 1),
        0 ≤ allocMatrix (zeroAuctParams 1 1) (zeroMat 1 1) i j ∧
        allocMatrix (zeroAuctParams 1 1) (zeroMat 1 1) i j ≤ 1) ∧
      (∀ j : Fin 1, ∑ i, allocMatrix (zeroAuctParams 1 1) (zeroMat 1 1) i j ≤ 1) ∧
      (∀ j : Fin 1,
        ∑ i, softmaxCol (fun k => allocL (zeroAuctParams 1 1) (zeroMat 1 1) k j) i = 1) ∧
      (∀ j : Fin 1,
        0 < allocItemProb (zeroAuctParams 1 1) (zeroMat 1 1) j ∧
        allocItemProb (zeroAuctParams 1 1) (zeroMat 1 1) j < 1)) :=
  ⟨by norm_num, alloc_feasibility 1 1 (by norm_num) (zeroAuctParams 1 1) (zeroMat 1 1)⟩

/-- Claim C7: every entry of the misreport matrix is strictly between 0 and
1 and equals the sigmoid of the misreporter MLP applied to the bidder's
permuted view of the profile. -/
theorem misreporter_output_range :
    ∀ (b n : ℕ) (mp : MisrParams b n) (vals : Mat b n) (i : Fin b) (j : Fin n),
      0 < Misreporter.call mp vals i j ∧ Misreporter.call mp vals i j < 1 ∧
      Misreporter.call mp vals i j =
        sigmoid (mp.misr_mlp (permute_along_bidders vals (i : ℕ)) j) :=
  fun _ _ _ _ _ _ => ⟨sigmoid_pos _, sigmoid_lt_one _, rfl⟩

/-- Claim C2 (amended): except when `items = 1 < bidders`, the Auctioneer
returns the pair of the allocation matrix and the payment vector, and each
payment is a sigmoid fraction strictly between 0 and 1 times the bidder's
allocated value. -/
theorem auctioneer_pay_formula :
    ∀ (b n : ℕ), ¬(1 < b ∧ n = 1) → ∀ (p : AuctParams b n) (vals : Mat b n),
      Auctioneer.call p vals = (allocMatrix p vals, payVec p vals) ∧
      ∀ i : Fin b,
        payVec p vals i = payFrac p vals i * ∑ j, vals i j * allocMatrix p vals i j ∧
        0 < payFrac p vals i ∧ payFrac p vals i < 1 ∧
        payFrac p vals i = sigmoid (p.pay_mlp (permute_along_bidders vals (i : ℕ))) := by
  intro b n h p vals
  refine ⟨rfl, fun i => ⟨?_, sigmoid_pos _, sigmoid_lt_one _, rfl⟩⟩
  unfold payVec squeezeDot
  rw [if_neg h]

/-- Witness for C2 in the single-bidder, single-item case with
constant-zero networks and the all-zeros valuation profile. -/
theorem auctioneer_pay_formula_witness :
    ¬(1 < 1 ∧ 1 = 1) ∧
    (Auctioneer.call (zeroAuctParams 1 1) (zeroMat 1 1) =
        (allocMatrix (zeroAuctParams 1 1) (zeroMat 1 1),
          payVec (zeroAuctParams 1 1) (zeroMat 1 1)) ∧
      ∀ i : Fin 1,
        payVec (zeroAuctParams 1 1) (zeroMat 1 1) i =
          payFrac (zeroAuctParams 1 1) (zeroMat 1 1) i *
            ∑ j, zeroMat 1 1 i j * allocMatrix (zeroAuctParams 1 1) (zeroMat 1 1) i j ∧
        0 < payFrac (zeroAuctParams 1 1) (zeroMat 1 1) i ∧
        payFrac (zeroAuctParams 1 1) (zeroMat 1 1) i < 1 ∧
        payFrac (zeroAuctParams 1 1) (zeroMat 1 1) i =
          sigmoid ((zeroAuctParams 1 1).pay_mlp
            (permute_along_bidders (zeroMat 1 1) (i : ℕ)))) :=
  ⟨by norm_num, auctioneer_pay_formula 1 1 (by norm_num) (zeroAuctParams 1 1) (zeroMat 1 1)⟩

/-- At two bidders and one item with constant-zero networks, bidder 0's
payment on `valsTwoOne` evaluates to 1/8 (the squeeze/broadcast path
multiplies by the total value of ALL bidders for the single item). -/
theorem payVec_twoOne_eval : payVec (zeroAuctParams 2 1) valsTwoOne 0 = 1 / 8 := by
  simp only [payVec, payFrac, squeezeDot, allocMatrix, allocItemProb, allocL, softmaxCol,
    zeroAuctParams, valsTwoOne, permute_along_bidders]
  norm_num [Fin.sum_univ_two, Fin.sum_univ_one, Real.exp_zero, sigmoid_zero_eq]

/-- At two bidders and one item, bidder 0's allocated value
`sum_j vals[0,j] * alloc[0,j]` on `valsTwoOne` is 0 (bidder 0 values the
item at 0). -/
theorem allocValue_twoOne_eval :
    ∑ j, valsTwoOne 0 j * allocMatrix (zeroAuctParams 2 1) valsTwoOne 0 j = 0 := by
  simp only [allocMatrix, allocItemProb, allocL, softmaxCol, zeroAuctParams, valsTwoOne,
    permute_along_bidders]
  norm_num [Fin.sum_univ_one]

/-- Counterexample for C2 as stated: with two bidders and one item the
payment is NOT the sigmoid fraction times bidder 0's own allocated value
(`jnp.squeeze` drops the item axis and broadcasting sums over all
bidders' values instead). -/
theorem auctioneer_pay_formula_counterexample :
    payVec (zeroAuctParams 2 1) valsTwoOne 0 ≠
      payFrac (zeroAuctParams 2 1) valsTwoOne 0 *
        ∑ j, valsTwoOne 0 j * allocMatrix (zeroAuctParams 2 1) valsTwoOne 0 j := by
  rw [payVec_twoOne_eval, allocValue_twoOne_eval, mul_zero]
  norm_num

/-- The squeeze/broadcast row value is nonnegative whenever both matrices
have nonnegative entries. -/
theorem squeezeDot_nonneg {b n : ℕ} (vals alloc : Mat b n)
    (hv : ∀ i j, 0 ≤ vals i j) (ha : ∀ i j, 0 ≤ alloc i j) (i : Fin b) :
    0 ≤ squeezeDot vals alloc i := by
  unfold squeezeDot
  split
  · exact mul_nonneg
      (Finset.sum_nonneg fun k _ => Finset.sum_nonneg fun j _ => hv k j)
      (Finset.sum_nonneg fun j _ => ha i j)
  · exact Finset.sum_nonneg fun j _ => mul_nonneg (hv i j) (ha i j)

/-- Claim C5 (amended): for nonnegative valuations every payment is
nonnegative, bounded by the allocated value as the code computes it
(`squeezeDot`), and the truthful utilities are nonnegative; the claimed
per-bidder bound `pay_i ≤ sum_j vals[i,j] * alloc[i,j]` holds whenever it
is not the case that `items = 1 < bidders`. -/
theorem auctioneer_individual_rationality :
    ∀ (b n : ℕ) (p : AuctParams b n) (vals : Mat b n),
      (∀ (i : Fin b) (j : Fin n), 0 ≤ vals i j) →
      (∀ i : Fin b,
        0 ≤ payVec p vals i ∧
        payVec p vals i ≤ squeezeDot vals (allocMatrix p vals) i ∧
        0 ≤ TPAL.utility vals (allocMatrix p vals) (payVec p vals) i) ∧
      (¬(1 < b ∧ n = 1) →
        ∀ i : Fin b, payVec p vals i ≤ ∑ j, vals i j * allocMatrix p vals i j) := by
  intro b n p vals hv
  have hsd : ∀ i, 0 ≤ squeezeDot vals (allocMatrix p vals) i :=
    fun i => squeezeDot_nonneg _ _ hv (fun r c => allocMatrix_nonneg p vals r c) i
  have hpay : ∀ i, payVec p vals i ≤ squeezeDot vals (allocMatrix p vals) i := by
    intro i
    have h1 : payFrac p vals i ≤ 1 := (sigmoid_lt_one _).le
    exact mul_le_of_le_one_left (hsd i) h1
  refine ⟨fun i => ⟨mul_nonneg (sigmoid_pos _).le (hsd i), hpay i, ?_⟩, ?_⟩
  · exact sub_nonneg.mpr (hpay i)
  · intro h i
    have heq : squeezeDot vals (allocMatrix p vals) i =
        ∑ j, vals i j * allocMatrix p vals i j := by
      unfold squeezeDot
      rw [if_neg h]
    rw [← heq]
    exact hpay i

/-- Witness for C5 in the single-bidder, single-item case with
constant-zero networks and the all-zeros (hence nonnegative) valuation
profile. -/
theorem auctioneer_individual_rationality_witness :
    (∀ (i : Fin 1) (j : Fin 1), 0 ≤ zeroMat 1 1 i j) ∧
    ((∀ i : Fin 1,
        0 ≤ payVec (zeroAuctParams 1 1) (zeroMat 1 1) i ∧
        payVec (zeroAuctParams 1 1) (zeroMat 1 1) i ≤
          squeezeDot (zeroMat 1 1) (allocMatrix (zeroAuctParams 1 1) (zeroMat 1 1)) i ∧
        0 ≤ TPAL.utility (zeroMat 1 1) (allocMatrix (zeroAuctParams 1 1) (zeroMat 1 1))
          (payVec (zeroAuctParams 1 1) (zeroMat 1 1)) i) ∧
      (¬(1 < 1 ∧ 1 = 1) →
        ∀ i : Fin 1,
          payVec (zeroAuctParams 1 1) (zeroMat 1 1) i ≤
            ∑ j, zeroMat 1 1 i j * allocMatrix (zeroAuctParams 1 1) (zeroMat 1 1) i j)) :=
  ⟨fun _ _ => le_refl 0,
    auctioneer_individual_rationality 1 1 (zeroAuctParams 1 1) (zeroMat 1 1)
      (fun _ _ => le_refl 0)⟩

/-- Counterexample for C5 as stated: with two bidders, one item and
nonnegative valuations, bidder 0's payment (1/8) exceeds bidder 0's own
allocated value (0), so the claimed bound fails on the
`items = 1 < bidders` broadcast path. -/
theorem auctioneer_individual_rationality_counterexample :
    (∀ (i : Fin 2) (j : Fin 1), 0 ≤ valsTwoOne i j) ∧
    ¬(payVec (zeroAuctParams 2 1) valsTwoOne 0 ≤
        ∑ j, valsTwoOne 0 j * allocMatrix (zeroAuctParams 2 1) valsTwoOne 0 j) := by
  constructor
  · intro i j
    unfold valsTwoOne
    split <;> norm_num
  · rw [payVec_twoOne_eval, allocValue_twoOne_eval]
    norm_num

/-- Claim C1 (code bug): the misreport profile used inside the losses is
NOT the truthful profile with bidder i's row replaced.  At the trained
shape (10 bidders, 5 items), `misr_bidder_i` with `i = 0` alters bidder 1's
entry for item 0 (it replaces the item-0 column for EVERY bidder), while
the row-replacement the source's comments describe leaves bidder 1
truthful; and for `i = 5 ≥ items` the NumPy slices clip to emptiness and
the profile is returned entirely unchanged, whereas row replacement would
install bidder 5's misreport. -/
theorem misr_bidder_i_axis_divergence :
    misr_bidder_i (zeroMat 10 5) (onesMat 10 5) 0 1 0 = 1 ∧
    misr_bidder_i_rowSpec (zeroMat 10 5) (onesMat 10 5) 0 1 0 = 0 ∧
    misr_bidder_i (zeroMat 10 5) (onesMat 10 5) 5 = zeroMat 10 5 ∧
    misr_bidder_i_rowSpec (zeroMat 10 5) (onesMat 10 5) 5 (5 : Fin 10) 0 = 1 := by
  refine ⟨?_, ?_, ?_, ?_⟩
  · norm_num [misr_bidder_i, onesMat]
  · norm_num [misr_bidder_i_rowSpec, zeroMat]
  · funext r c
    unfold misr_bidder_i
    rw [if_neg (by have := c.isLt; omega : ¬((c : ℕ) = 5))]
  · unfold misr_bidder_i_rowSpec
    rw [if_pos (by decide : ((5 : Fin 10) : ℕ) = 5)]
    rfl

/-- Claim C3 (code bug): evaluating `misr_loss` at one bidder, two items,
constant-zero networks and the profile `[0, 1]`.  The code (column
replacement) yields `-(1/8)`, while the loss computed with the bidder-row
replacement the claim describes yields `-(1/4)`: the deviating profile the
code feeds to the auction keeps item 1's report truthful instead of using
the bidder's full misreport row. -/
theorem misr_loss_axis_divergence :
    TPAL.misr_loss (zeroMisrParams 1 2) (zeroAuctParams 1 2) valsOneTwo = -(1 / 8) ∧
    TPAL.misr_loss_rowSpec (zeroMisrParams 1 2) (zeroAuctParams 1 2) valsOneTwo = -(1 / 4) ∧
    TPAL.misr_loss (zeroMisrParams 1 2) (zeroAuctParams 1 2) valsOneTwo ≠
      TPAL.misr_loss_rowSpec (zeroMisrParams 1 2) (zeroAuctParams 1 2) valsOneTwo := by
  have h1 : TPAL.misr_loss (zeroMisrParams 1 2) (zeroAuctParams 1 2) valsOneTwo = -(1 / 8) := by
    simp only [TPAL.misr_loss, TPAL.misr_utility, TPAL.utility, payVec, payFrac, squeezeDot,
      allocMatrix, allocItemProb, allocL, softmaxCol, Misreporter.call, misr_bidder_i,
      zeroMisrParams, zeroAuctParams, valsOneTwo, permute_along_bidders,
      Fin.sum_univ_one, Fin.sum_univ_two]
    norm_num [Real.exp_zero, sigmoid_zero_eq]
  have h2 : TPAL.misr_loss_rowSpec (zeroMisrParams 1 2) (zeroAuctParams 1 2) valsOneTwo
      = -(1 / 4) := by
    simp only [TPAL.misr_loss_rowSpec, TPAL.misr_utility_rowSpec, TPAL.utility, payVec,
      payFrac, squeezeDot, allocMatrix, allocItemProb, allocL, softmaxCol, Misreporter.call,
      misr_bidder_i_rowSpec, zeroMisrParams, zeroAuctParams, valsOneTwo,
      permute_along_bidders, Fin.sum_univ_one, Fin.sum_univ_two]
    norm_num [Real.exp_zero, sigmoid_zero_eq]
  refine ⟨h1, h2, ?_⟩
  rw [h1, h2]
  norm_num

/-- Claim C6: `reinit_misr` keeps the auctioneer's parameters and optimizer
state; each training step first reinitialises the misreporter exactly when
`step % misr_reinit_iv == 0` and `step <= misr_reinit_lim`, then performs
exactly `misr_updates` misreporter updates followed by exactly one
auctioneer update, all on the batch sampled at the start of the step; and
the training run folds these steps over `0, …, num_steps - 1`. -/
theorem training_loop_structure :
    ∀ (Key Batch AP MP AO MO : Type)
      (split : Key → Key × Key) (misrInit : Key → Batch → MP) (misrOptInit : MP → MO)
      (updMisr updAuct : TPALState AP MP AO MO → Batch → TPALState AP MP AO MO)
      (sampleFn : Key → ℕ → Key × Batch)
      (misr_updates misr_reinit_iv misr_reinit_lim batch_size : ℕ)
      (rng_misr_reinit : Key),
      (∀ (rng : Key) (st : TPALState AP MP AO MO) (vals : Batch),
        (TPAL.reinit_misr split misrInit misrOptInit rng st vals).params.auct =
          st.params.auct ∧
        (TPAL.reinit_misr split misrInit misrOptInit rng st vals).opt_state.auct =
          st.opt_state.auct) ∧
      (∀ (step : ℕ) (ks : Key × TPALState AP MP AO MO),
        (TPAL.trainStep split misrInit misrOptInit updMisr updAuct sampleFn
            misr_updates misr_reinit_iv misr_reinit_lim batch_size rng_misr_reinit
            step ks).2 =
          updAuct
            ((fun s => updMisr s (sampleFn ks.1 batch_size).2)^[misr_updates]
              (if step % misr_reinit_iv = 0 ∧ step ≤ misr_reinit_lim then
                TPAL.reinit_misr split misrInit misrOptInit rng_misr_reinit ks.2
                  (sampleFn (sampleFn ks.1 batch_size).1 1).2
              else ks.2))
            (sampleFn ks.1 batch_size).2) ∧
      (∀ (num_steps : ℕ) (init : Key × TPALState AP MP AO MO),
        TPAL.training split misrInit misrOptInit updMisr updAuct sampleFn
            misr_updates misr_reinit_iv misr_reinit_lim batch_size rng_misr_reinit
            (num_steps + 1) init =
          TPAL.trainStep split misrInit misrOptInit updMisr updAuct sampleFn
            misr_updates misr_reinit_iv misr_reinit_lim batch_size rng_misr_reinit
            num_steps
            (TPAL.training split misrInit misrOptInit updMisr updAuct sampleFn
              misr_updates misr_reinit_iv misr_reinit_lim batch_size rng_misr_reinit
              num_steps init)) := by
  intro Key Batch AP MP AO MO split misrInit misrOptInit updMisr updAuct sampleFn
    misr_updates misr_reinit_iv misr_reinit_lim batch_size rng_misr_reinit
  refine ⟨fun rng st vals => ⟨rfl, rfl⟩, ?_, ?_⟩
  · intro step ks
    by_cases h : step % misr_reinit_iv = 0 ∧ step ≤ misr_reinit_lim
    · simp [TPAL.trainStep, h]
    · simp [TPAL.trainStep, h]
  · intro num_steps init
    simp [TPAL.training, List.range_succ]

/-- Claim C8: `BidSampler.sample` advances the sampler key to the first
component of the split, and returns a batch all of whose slices along the
first axis are identical (the same subkey is reused for every sample);
entries lie in `[0, 1)` whenever the underlying uniform draw does. -/
theorem bid_sampler_identical_slices :
    ∀ (Key : Type) (b n : ℕ) (split : Key → Key × Key) (uniform : Key → Mat b n)
      (key : Key) (m : ℕ), 1 ≤ m →
      (∀ (k : Key) (r : Fin b) (c : Fin n), 0 ≤ uniform k r c ∧ uniform k r c < 1) →
      (∀ s t : Fin m,
        (BidSampler.sample split uniform key m).2 s =
          (BidSampler.sample split uniform key m).2 t) ∧
      (∀ (s : Fin m) (r : Fin b) (c : Fin n),
        0 ≤ (BidSampler.sample split uniform key m).2 s r c ∧
        (BidSampler.sample split uniform key m).2 s r c < 1) ∧
      (BidSampler.sample split uniform key m).1 = (split key).1 ∧
      (∀ s : Fin m, (BidSampler.sample split uniform key m).2 s = uniform (split key).2) :=
  fun _ _ _ _ _ _ _ _ hu =>
    ⟨fun _ _ => rfl, fun _ r c => hu _ r c, rfl, fun _ => rfl⟩

/-- Witness for C8: a trivial one-element key type, a single sample, and a
uniform draw that is constantly zero. -/
theorem bid_sampler_identical_slices_witness :
    1 ≤ 1 ∧
    (∀ (_k : Unit) (r : Fin 1) (c : Fin 1),
      0 ≤ zeroMat 1 1 r c ∧ zeroMat 1 1 r c < 1) ∧
    ((∀ s t : Fin 1,
        (BidSampler.sample (fun _ : Unit => ((), ())) (fun _ => zeroMat 1 1) () 1).2 s =
          (BidSampler.sample (fun _ : Unit => ((), ())) (fun _ => zeroMat 1 1) () 1).2 t) ∧
      (∀ (s : Fin 1) (r : Fin 1) (c : Fin 1),
        0 ≤ (BidSampler.sample (fun _ : Unit => ((), ())) (fun _ => zeroMat 1 1) () 1).2 s r c ∧
        (BidSampler.sample (fun _ : Unit => ((), ())) (fun _ => zeroMat 1 1) () 1).2 s r c < 1) ∧
      (BidSampler.sample (fun _ : Unit => ((), ())) (fun _ => zeroMat 1 1) () 1).1 =
        ((fun _ : Unit => ((), ())) ()).1 ∧
      (∀ s : Fin 1,
        (BidSampler.sample (fun _ : Unit => ((), ())) (fun _ => zeroMat 1 1) () 1).2 s =
          (fun _ : Unit => zeroMat 1 1) ((fun _ : Unit => ((), ())) ()).2)) :=
  ⟨le_refl 1, fun _ _ _ => ⟨le_refl 0, by norm_num [zeroMat]⟩,
    bid_sampler_identical_slices Unit 1 1 (fun _ => ((), ())) (fun _ => zeroMat 1 1) () 1
      (le_refl 1) (fun _ _ _ => ⟨le_refl 0, by norm_num [zeroMat]⟩)⟩
